import Mathlib

/-!
Verification of the NetworkInterface reconciliation controller
(`controllers/networkinterface_controller.go`).

The controller's `Reconcile` method is a straight-line procedure that reads a
`NetworkInterface` object from the cluster store, filters out foreign objects
and objects still awaiting a hardware address, handles teardown for
terminating objects, and then verifies metadata, resolves and persists the
host link name, configures the link and synchronizes routes.

The embedding is a pure function over an explicit `World` that models
the cluster store (objects held in lists) together with the outcomes of every
external collaborator call (link synchronizer, metadata provider, store
writes).  The function returns the controller result, the updated world and
the ordered trace of external calls that the pass performed, so statements
about "which calls happen, in which order, and which writes are performed"
become statements about the returned trace and world.
-/

namespace Vpc

/-- Object metadata of a stored object: name, deletion timestamp
(`none` models a zero deletion timestamp, i.e. not terminating), finalizers,
owner references (by name) and labels (an association list). -/
structure ObjectMeta where
  name : String
  deletionTimestamp : Option Nat
  finalizers : List String
  ownerReferences : List String
  labels : List (String × String)
deriving Repr, DecidableEq

/-- Spec of a `NetworkInterface`: the node it is bound to and the desired
address (`Spec.NodeName`, `Spec.Address`). -/
structure NetworkInterfaceSpec where
  nodeName : String
  address : String
deriving Repr, DecidableEq

/-- Status of a `NetworkInterface` (`Status.MacAddress`, `Status.LinkName`). -/
structure NetworkInterfaceStatus where
  macAddress : String
  linkName : String
deriving Repr, DecidableEq

/-- A stored `NetworkInterface` object. -/
structure NetworkInterface where
  meta : ObjectMeta
  spec : NetworkInterfaceSpec
  status : NetworkInterfaceStatus
deriving Repr, DecidableEq

/-- One entry of `PrivateNetwork.Spec.Routes`: unparsed `To` (CIDR) and
`Via` (IP) strings. -/
structure RouteSpec where
  To : String
  Via : String
deriving Repr, DecidableEq

/-- A stored `PrivateNetwork` object: its name and its route list. -/
structure PrivateNetwork where
  name : String
  routes : List RouteSpec
deriving Repr, DecidableEq

/-- An IPv4 address, as four octets. -/
structure IPv4 where
  o1 : Nat
  o2 : Nat
  o3 : Nat
  o4 : Nat
deriving Repr, DecidableEq

/-- A parsed CIDR (`net.IPNet` as produced by `netlink.ParseIPNet`):
address part plus mask length. -/
structure IPNet where
  ip : IPv4
  maskLen : Nat
deriving Repr, DecidableEq

/-- The engine-internal `nics.Route`: parsed `To`, and `Via` as produced by
`net.ParseIP`, which yields Go `nil` (here `none`) on unparseable input. -/
structure Route where
  To : IPNet
  Via : Option IPv4
deriving Repr, DecidableEq

/-- Modelled from the spec: the finalizer marker constant `finalizerName` is
declared elsewhere in the repository; its concrete value is immaterial to the
control flow, which only tests membership in the finalizer list. -/
def finalizerName : String := "vpc.scaleway.com"

/-- Modelled from the spec: the label key constant `privateNetworkLabel` is
declared elsewhere in the repository; its concrete value is immaterial, the
fan-out only uses it as the key of the label selector. -/
def privateNetworkLabel : String := "vpc.scaleway.com/pn"

/-- Decimal digits to a number, accumulator style (Go `dtoi`). -/
def digitsToNat (acc : Nat) : List Char → Option Nat
  | [] => some acc
  | c :: cs => if c.isDigit then digitsToNat (acc * 10 + (c.toNat - 48)) cs else none

/-- The dot separating IPv4 octets. -/
def dotChar : Char := '.'

/-- The slash separating a CIDR's address and mask length. -/
def slashChar : Char := '/'

/-- Split a character list at every occurrence of `sep` (the separators used
by the Go parsers are the single characters `.` and `/`). -/
def splitOnChar (sep : Char) : List Char → List (List Char)
  | [] => [[]]
  | c :: cs =>
    match splitOnChar sep cs with
    | [] => if c = sep then [[], [c]] else [[c]]
    | g :: gs => if c = sep then [] :: g :: gs else (c :: g) :: gs

/-- Parse one dotted-quad field: nonempty run of digits with value at most
255 (Go `net.ParseIP` of this era accepts leading zeros). -/
def parseOctet (cs : List Char) : Option Nat :=
  match cs with
  | [] => none
  | _ =>
    match digitsToNat 0 cs with
    | none => none
    | some v => if v ≤ 255 then some v else none

/-- Model of `net.ParseIP` restricted to IPv4 dotted-quad inputs: exactly
four fields, each a valid octet; everything else yields `none` (Go `nil`). -/
def parseIP (s : String) : Option IPv4 :=
  match (splitOnChar dotChar s.toList).map parseOctet with
  | [some a, some b, some c, some d] => some ⟨a, b, c, d⟩
  | _ => none

/-- Parse a mask length: nonempty run of digits with value at most 32. -/
def parseMaskLen (cs : List Char) : Option Nat :=
  match cs with
  | [] => none
  | _ =>
    match digitsToNat 0 cs with
    | none => none
    | some v => if v ≤ 32 then some v else none

/-- Model of `netlink.ParseIPNet` (which wraps `net.ParseCIDR`) restricted to
IPv4: an address, a single slash, and a mask length. -/
def parseIPNet (s : String) : Option IPNet :=
  match splitOnChar slashChar s.toList with
  | [a, m] =>
    match parseIP (String.mk a), parseMaskLen m with
    | some ip, some len => some ⟨ip, len⟩
    | _, _ => none
  | _ => none

/-- Decidable equality for `Except`, so parse results can be checked by
`decide` on concrete inputs. -/
instance {α β : Type} [DecidableEq α] [DecidableEq β] :
    DecidableEq (Except α β) := fun a b =>
  match a, b with
  | Except.error x, Except.error y =>
    if h : x = y then isTrue (by rw [h])
    else isFalse (by intro he; cases he; exact h rfl)
  | Except.error _, Except.ok _ => isFalse (by intro he; cases he)
  | Except.ok _, Except.error _ => isFalse (by intro he; cases he)
  | Except.ok x, Except.ok y =>
    if h : x = y then isTrue (by rw [h])
    else isFalse (by intro he; cases he; exact h rfl)

/-- The route-parsing loop of `Reconcile` (lines 137-149): for each entry,
`Via` is parsed with no error check, while a `To` that fails to parse as a
CIDR aborts with that entry's `To` string as the error. -/
def parseRoutes : List RouteSpec → Except String (List Route)
  | [] => Except.ok []
  | r :: rest =>
    match parseIPNet r.To with
    | none => Except.error r.To
    | some cidr =>
      match parseRoutes rest with
      | Except.error e => Except.error e
      | Except.ok rs => Except.ok ({ To := cidr, Via := parseIP r.Via } :: rs)

/-- One external call performed by a reconciliation pass, in trace order. -/
inductive Call where
  | get (name : String)
  | tearDownLink (mac addr : String)
  | update (nic : NetworkInterface)
  | getMetadata
  | getLinkName (mac : String)
  | statusUpdate (nic : NetworkInterface)
  | configureLink (mac addr : String)
  | getPrivateNetwork (name : String)
  | syncRoutes (mac : String) (routes : List Route)
deriving Repr, DecidableEq

/-- Error classes a pass can surface, tagged by the failing step; `parseTo`
carries the unparseable `To` string. -/
inductive Err where
  | tearDownFailed
  | updateFailed
  | metadataFailed
  | nicNotFoundOnNode
  | linkNameFailed
  | statusUpdateFailed
  | configureFailed
  | pnetNotFound
  | parseTo (s : String)
  | syncRoutesFailed
deriving Repr, DecidableEq

/-- The `ctrl.Result` value together with the returned error: `requeueAfter`
is `some n` for `ctrl.Result{RequeueAfter: n seconds}`, `error = none` for a
nil error. -/
structure ReconcileResult where
  requeueAfter : Option Nat
  error : Option Err
deriving Repr, DecidableEq

/-- The cluster store plus the behaviour of every external collaborator
during one pass: stored objects, whether each imperative operation succeeds,
the metadata snapshot (`none` models a `GetMetadata` error) and the link
table consulted by `GetLinkName` (absence models its error). -/
structure World where
  nics : List NetworkInterface
  pnets : List PrivateNetwork
  tearDownOK : Bool
  updateOK : Bool
  statusUpdateOK : Bool
  configureOK : Bool
  syncRoutesOK : Bool
  listOK : Bool
  metadata : Option (List String)
  links : List (String × String)
deriving Repr, DecidableEq

/-- Replace the object's main-resource part (metadata and spec) in a list of
stored objects, keeping the stored status: Kubernetes `Update` with the
status subresource enabled does not write status. -/
def putObjList (nics : List NetworkInterface) (nic : NetworkInterface) :
    List NetworkInterface :=
  nics.map fun o =>
    if o.meta.name = nic.meta.name then { nic with status := o.status } else o

/-- Replace the object's status in a list of stored objects, keeping the
stored metadata and spec: Kubernetes `Status().Update` writes only status. -/
def putStatusList (nics : List NetworkInterface) (nic : NetworkInterface) :
    List NetworkInterface :=
  nics.map fun o =>
    if o.meta.name = nic.meta.name then { o with status := nic.status } else o

/-- Store write through `Client.Update`. -/
def World.putObj (w : World) (nic : NetworkInterface) : World :=
  { w with nics := putObjList w.nics nic }

/-- Store write through `Client.Status().Update`. -/
def World.putStatus (w : World) (nic : NetworkInterface) : World :=
  { w with nics := putStatusList w.nics nic }

/-- Look a hardware address up in the world's link table (`GetLinkName`). -/
def lookupLink : List (String × String) → String → Option String
  | [], _ => none
  | (k, v) :: rest, mac => if k = mac then some v else lookupLink rest mac

/-- Outcome of a pass: a normal return carrying result, final world and call
trace, or a Go runtime panic (carrying the world and the calls made before
the panic). -/
inductive Outcome where
  | ok (res : ReconcileResult) (world : World) (calls : List Call)
  | panicked (world : World) (calls : List Call)
deriving Repr, DecidableEq

/-- Call trace of an outcome. -/
def Outcome.callsOf : Outcome → List Call
  | .ok _ _ calls => calls
  | .panicked _ calls => calls

/-- World after an outcome. -/
def Outcome.worldOf : Outcome → World
  | .ok _ w _ => w
  | .panicked w _ => w

/-- Model of `controllerutil.RemoveFinalizer`: drop the marker from the
object's finalizer list. -/
def removeFinalizer (nic : NetworkInterface) : NetworkInterface :=
  { nic with
    meta := { nic.meta with
      finalizers := nic.meta.finalizers.filter (fun f => f ≠ finalizerName) } }

/-- The controller: only its node name matters to the embedded control
flow. -/
structure Reconciler where
  nodeName : String
deriving Repr, DecidableEq

/-- Lines 151-155: call `SyncRoutes` with the parsed route set; an error is
surfaced, success ends the pass with an empty result. -/
def stepSyncRoutes (w : World) (calls : List Call) (nic : NetworkInterface)
    (routes : List Route) : Outcome :=
  let calls := calls ++ [Call.syncRoutes nic.status.macAddress routes]
  if w.syncRoutesOK then Outcome.ok ⟨none, none⟩ w calls
  else Outcome.ok ⟨none, some Err.syncRoutesFailed⟩ w calls

/-- Lines 137-149: parse the owning network's routes; the first entry whose
`To` fails to parse aborts the pass with that parse error. -/
def stepRoutes (w : World) (calls : List Call) (nic : NetworkInterface)
    (pnet : PrivateNetwork) : Outcome :=
  match parseRoutes pnet.routes with
  | Except.error s => Outcome.ok ⟨none, some (Err.parseTo s)⟩ w calls
  | Except.ok routes => stepSyncRoutes w calls nic routes

/-- Lines 130-135: `nic.OwnerReferences[0].Name` panics on an empty owner
list (Go index out of range) before any store call is made; otherwise the
owning `PrivateNetwork` is fetched, a failure being surfaced. -/
def stepOwner (w : World) (calls : List Call) (nic : NetworkInterface) :
    Outcome :=
  match nic.meta.ownerReferences with
  | [] => Outcome.panicked w calls
  | owner :: _ =>
    let calls := calls ++ [Call.getPrivateNetwork owner]
    match w.pnets.find? (fun p => p.name == owner) with
    | none => Outcome.ok ⟨none, some Err.pnetNotFound⟩ w calls
    | some pnet => stepRoutes w calls nic pnet

/-- Lines 124-128: `ConfigureLink`; an error is surfaced. -/
def stepConfigure (w : World) (calls : List Call) (nic : NetworkInterface) :
    Outcome :=
  let calls := calls ++ [Call.configureLink nic.status.macAddress nic.spec.address]
  if w.configureOK then stepOwner w calls nic
  else Outcome.ok ⟨none, some Err.configureFailed⟩ w calls

/-- Lines 117-122: set `Status.LinkName` on the in-memory object and write
the status subresource; on failure the pass aborts with the store untouched,
on success the store's status is updated and the pass continues. -/
def stepStatusWrite (w : World) (calls : List Call) (nic : NetworkInterface)
    (linkName : String) : Outcome :=
  let nic := { nic with status := { nic.status with linkName := linkName } }
  let calls := calls ++ [Call.statusUpdate nic]
  if w.statusUpdateOK then stepConfigure (w.putStatus nic) calls nic
  else Outcome.ok ⟨none, some Err.statusUpdateFailed⟩ w calls

/-- Lines 111-115: `GetLinkName`; an error (no link for the hardware
address) is surfaced, otherwise the resolved name is persisted. -/
def stepLink (w : World) (calls : List Call) (nic : NetworkInterface) :
    Outcome :=
  let calls := calls ++ [Call.getLinkName nic.status.macAddress]
  match lookupLink w.links nic.status.macAddress with
  | none => Outcome.ok ⟨none, some Err.linkNameFailed⟩ w calls
  | some linkName => stepStatusWrite w calls nic linkName

/-- Lines 92-109: `GetMetadata`, then the linear scan of `PrivateNICs` for
the object's hardware address; a missing address is the fatal
"nic not found on node" error. -/
def stepMetadata (w : World) (calls : List Call) (nic : NetworkInterface) :
    Outcome :=
  let calls := calls ++ [Call.getMetadata]
  match w.metadata with
  | none => Outcome.ok ⟨none, some Err.metadataFailed⟩ w calls
  | some macs =>
    if nic.status.macAddress ∈ macs then stepLink w calls nic
    else Outcome.ok ⟨none, some Err.nicNotFoundOnNode⟩ w calls

/-- Lines 76-90: for a terminating object carrying the finalizer, tear the
link down; on success remove the finalizer and update the store, surfacing
either failure; in every non-failing case fall through to the metadata
step. -/
def stepTerminating (w : World) (calls : List Call) (nic : NetworkInterface) :
    Outcome :=
  if nic.meta.deletionTimestamp.isSome ∧ finalizerName ∈ nic.meta.finalizers then
    let calls := calls ++ [Call.tearDownLink nic.status.macAddress nic.spec.address]
    if w.tearDownOK then
      let nic := removeFinalizer nic
      let calls := calls ++ [Call.update nic]
      if w.updateOK then stepMetadata (w.putObj nic) calls nic
      else Outcome.ok ⟨none, some Err.updateFailed⟩ w calls
    else Outcome.ok ⟨none, some Err.tearDownFailed⟩ w calls
  else stepMetadata w calls nic

/-- Lines 57-158: the whole `Reconcile` pass for the request key `reqName`.
A missing object is success (NotFound is ignored); a foreign object is
success with no action; an empty `Status.MacAddress` is success with a
one-second requeue; otherwise the teardown/metadata/link/configure/route
chain runs. -/
def Reconcile (r : Reconciler) (w : World) (reqName : String) : Outcome :=
  let calls := [Call.get reqName]
  match w.nics.find? (fun n => n.meta.name == reqName) with
  | none => Outcome.ok ⟨none, none⟩ w calls
  | some nic =>
    if nic.spec.nodeName ≠ r.nodeName then Outcome.ok ⟨none, none⟩ w calls
    else if nic.status.macAddress = "" then Outcome.ok ⟨some 1, none⟩ w calls
    else stepTerminating w calls nic

/-- A reconciliation request as enqueued by the fan-out: namespace (left
empty by this path) and name. -/
structure Request where
  ns : String
  name : String
deriving Repr, DecidableEq

/-- Label-selector list (`client.MatchingLabels`): the objects whose label
map carries `privateNetworkLabel = pnetName`. -/
def listByLabel (nics : List NetworkInterface) (pnetName : String) :
    List NetworkInterface :=
  nics.filter (fun n => (privateNetworkLabel, pnetName) ∈ n.meta.labels)

/-- Lines 178-185: the enqueue loop, adding one name-only request per listed
object to the queue. -/
def enqueueAll : List NetworkInterface → List Request → List Request
  | [], q => q
  | nic :: rest, q => enqueueAll rest (q ++ [⟨"", nic.meta.name⟩])

/-- Lines 166-186: the `PrivateNetwork` update handler; a listing failure is
logged and dropped (queue unchanged), otherwise every labelled member is
enqueued. -/
def handlePrivateNetworkUpdate (w : World) (pnetName : String)
    (q : List Request) : List Request :=
  if w.listOK then enqueueAll (listByLabel w.nics pnetName) q else q


/-- The one situation in which a pass changes more than the status
subresource: a terminating local object carrying the finalizer whose
teardown and finalizer-clearing update both succeed, so the finalizer
disappears from the store during the pass. -/
def clearsFinalizer (r : Reconciler) (w : World) (n : String) : Prop :=
  ∃ nic, w.nics.find? (fun m => m.meta.name == n) = some nic
    ∧ nic.spec.nodeName = r.nodeName
    ∧ nic.status.macAddress ≠ ""
    ∧ nic.meta.deletionTimestamp.isSome
    ∧ finalizerName ∈ nic.meta.finalizers
    ∧ w.tearDownOK = true
    ∧ w.updateOK = true

namespace Fixtures

/-- A controller instance running on node `node1`. -/
def rNode : Reconciler := ⟨"node1"⟩

/-- The owning network with no routes. -/
def pnEmpty : PrivateNetwork := { name := "pn1", routes := [] }

/-- The owning network with one route whose `To` is unparseable. -/
def pnBadRoute : PrivateNetwork :=
  { name := "pn1", routes := [{ To := "bad", Via := "10.0.0.1" }] }

/-- The owning network with one route whose `Via` is unparseable. -/
def pnBadVia : PrivateNetwork :=
  { name := "pn1", routes := [{ To := "10.0.0.0/24", Via := "nope" }] }

/-- A foreign object: bound to another node, with a hardware address that is
absent from the metadata snapshot below. -/
def nicForeign : NetworkInterface :=
  { meta := { name := "n1", deletionTimestamp := none, finalizers := [],
              ownerReferences := ["pn1"], labels := [] },
    spec := { nodeName := "node2", address := "10.0.0.2/24" },
    status := { macAddress := "aa:bb", linkName := "" } }

/-- A world storing only the foreign object, whose metadata snapshot does not
contain its hardware address. -/
def wForeign : World :=
  { nics := [nicForeign], pnets := [], tearDownOK := true, updateOK := true,
    statusUpdateOK := true, configureOK := true, syncRoutesOK := true,
    listOK := true, metadata := some [], links := [] }

/-- A local, non-terminating object with no owner reference at all, whose
pass succeeds through the metadata, link, status-write and configure steps. -/
def nicNoOwner : NetworkInterface :=
  { meta := { name := "n1", deletionTimestamp := none, finalizers := [],
              ownerReferences := [], labels := [] },
    spec := { nodeName := "node1", address := "10.0.0.2/24" },
    status := { macAddress := "aa:bb", linkName := "" } }

/-- The no-owner object after the pass has resolved and written its link
name. -/
def nicNoOwnerNamed : NetworkInterface :=
  { nicNoOwner with status := { nicNoOwner.status with linkName := "scw0" } }

/-- A world where every external operation succeeds and the no-owner object
is attached and resolvable. -/
def wNoOwner : World :=
  { nics := [nicNoOwner], pnets := [], tearDownOK := true, updateOK := true,
    statusUpdateOK := true, configureOK := true, syncRoutesOK := true,
    listOK := true, metadata := some ["aa:bb"], links := [("aa:bb", "scw0")] }


/-- A terminating object carrying the finalizer marker, owned by `pn1`. -/
def nicTerm : NetworkInterface :=
  { meta := { name := "n1", deletionTimestamp := some 5,
              finalizers := [finalizerName], ownerReferences := ["pn1"],
              labels := [] },
    spec := { nodeName := "node1", address := "10.0.0.2/24" },
    status := { macAddress := "aa:bb", linkName := "" } }

/-- A world where every external operation succeeds, storing the terminating
object and its owning network (with no routes). -/
def wTerm : World :=
  { nics := [nicTerm], pnets := [pnEmpty],
    tearDownOK := true, updateOK := true, statusUpdateOK := true,
    configureOK := true, syncRoutesOK := true, listOK := true,
    metadata := some ["aa:bb"], links := [("aa:bb", "scw0")] }


/-- A local, non-terminating object whose hardware address the metadata
snapshot below does not contain. -/
def nicAbsent : NetworkInterface :=
  { meta := { name := "n1", deletionTimestamp := none, finalizers := [],
              ownerReferences := ["pn1"], labels := [] },
    spec := { nodeName := "node1", address := "10.0.0.2/24" },
    status := { macAddress := "aa:bb", linkName := "eth9" } }

/-- A world whose metadata snapshot lists a different hardware address than
the stored object's. -/
def wAbsent : World :=
  { nics := [nicAbsent], pnets := [{ name := "pn1", routes := [] }],
    tearDownOK := true, updateOK := true, statusUpdateOK := true,
    configureOK := true, syncRoutesOK := true, listOK := true,
    metadata := some ["cc:dd"], links := [("aa:bb", "scw0")] }


/-- A world like `wAbsent` but whose metadata snapshot contains the object's
address, and whose owning network has one route with an unparseable `To`. -/
def wBadRoute : World :=
  { nics := [nicAbsent],
    pnets := [pnBadRoute],
    tearDownOK := true, updateOK := true, statusUpdateOK := true,
    configureOK := true, syncRoutesOK := true, listOK := true,
    metadata := some ["aa:bb"], links := [("aa:bb", "scw0")] }

/-- A world whose owning network has one route with a well-formed `To` and an
unparseable `Via`. -/
def wBadVia : World :=
  { nics := [nicAbsent],
    pnets := [pnBadVia],
    tearDownOK := true, updateOK := true, statusUpdateOK := true,
    configureOK := true, syncRoutesOK := true, listOK := true,
    metadata := some ["aa:bb"], links := [("aa:bb", "scw0")] }




/-- A member of `pn1`: labelled with the private-network label, identified
only by its name. -/
def nicLabeled (nm : String) : NetworkInterface :=
  { meta := { name := nm, deletionTimestamp := none, finalizers := [],
              ownerReferences := ["pn1"],
              labels := [(privateNetworkLabel, "pn1")] },
    spec := { nodeName := "node1", address := "" },
    status := { macAddress := "", linkName := "" } }

/-- An object labelled as member of a different network. -/
def nicOtherNet : NetworkInterface :=
  { meta := { name := "x1", deletionTimestamp := none, finalizers := [],
              ownerReferences := ["pn2"],
              labels := [(privateNetworkLabel, "pn2")] },
    spec := { nodeName := "node1", address := "" },
    status := { macAddress := "", linkName := "" } }

/-- A store with three members of `pn1` and one member of another network,
where listing succeeds. -/
def wFan : World :=
  { nics := [nicLabeled "m1", nicLabeled "m2", nicOtherNet, nicLabeled "m3"],
    pnets := [], tearDownOK := true, updateOK := true, statusUpdateOK := true,
    configureOK := true, syncRoutesOK := true, listOK := true,
    metadata := none, links := [] }

/-- The same store, but listing fails. -/
def wFanFail : World :=
  { wFan with listOK := false }

end Fixtures

/-! Basic lemmas about traces, worlds and the step chain. -/

theorem callsOf_ok (res : ReconcileResult) (w : World) (calls : List Call) :
    (Outcome.ok res w calls).callsOf = calls := rfl

theorem worldOf_ok (res : ReconcileResult) (w : World) (calls : List Call) :
    (Outcome.ok res w calls).worldOf = w := rfl

theorem reconcile_found (r : Reconciler) (w : World) (n : String)
    (nic : NetworkInterface)
    (hfind : w.nics.find? (fun m => m.meta.name == n) = some nic)
    (hnode : nic.spec.nodeName = r.nodeName)
    (hmac : nic.status.macAddress ≠ "") :
    Reconcile r w n = stepTerminating w [Call.get n] nic := by
  simp [Reconcile, hfind, hnode, hmac]

theorem stepTerminating_skip (w : World) (calls : List Call)
    (nic : NetworkInterface)
    (h : ¬(nic.meta.deletionTimestamp.isSome ∧ finalizerName ∈ nic.meta.finalizers)) :
    stepTerminating w calls nic = stepMetadata w calls nic := by
  simp [stepTerminating, h]

theorem stepTerminating_fall_through (w : World) (calls : List Call)
    (nic : NetworkInterface)
    (hdel : nic.meta.deletionTimestamp.isSome)
    (hfin : finalizerName ∈ nic.meta.finalizers)
    (htd : w.tearDownOK = true) (hupd : w.updateOK = true) :
    stepTerminating w calls nic =
      stepMetadata (w.putObj (removeFinalizer nic))
        (calls ++ [Call.tearDownLink nic.status.macAddress nic.spec.address,
                   Call.update (removeFinalizer nic)])
        (removeFinalizer nic) := by
  simp [stepTerminating, hdel, hfin, htd, hupd]

theorem stepMetadata_found (w : World) (calls : List Call)
    (nic : NetworkInterface) (macs : List String)
    (hmd : w.metadata = some macs) (hin : nic.status.macAddress ∈ macs) :
    stepMetadata w calls nic = stepLink w (calls ++ [Call.getMetadata]) nic := by
  simp [stepMetadata, hmd, hin]

theorem stepLink_resolved (w : World) (calls : List Call)
    (nic : NetworkInterface) (linkName : String)
    (hlk : lookupLink w.links nic.status.macAddress = some linkName) :
    stepLink w calls nic =
      stepStatusWrite w (calls ++ [Call.getLinkName nic.status.macAddress]) nic
        linkName := by
  simp [stepLink, hlk]

theorem stepStatusWrite_ok (w : World) (calls : List Call)
    (nic : NetworkInterface) (linkName : String)
    (hsu : w.statusUpdateOK = true) :
    stepStatusWrite w calls nic linkName =
      stepConfigure
        (w.putStatus { nic with status := { nic.status with linkName := linkName } })
        (calls ++ [Call.statusUpdate
          { nic with status := { nic.status with linkName := linkName } }])
        { nic with status := { nic.status with linkName := linkName } } := by
  simp [stepStatusWrite, hsu]

theorem stepConfigure_ok (w : World) (calls : List Call)
    (nic : NetworkInterface) (hcfg : w.configureOK = true) :
    stepConfigure w calls nic =
      stepOwner w
        (calls ++ [Call.configureLink nic.status.macAddress nic.spec.address])
        nic := by
  simp [stepConfigure, hcfg]

theorem stepOwner_resolved (w : World) (calls : List Call)
    (nic : NetworkInterface) (owner : String) (rest : List String)
    (pnet : PrivateNetwork)
    (hown : nic.meta.ownerReferences = owner :: rest)
    (hpn : w.pnets.find? (fun p => p.name == owner) = some pnet) :
    stepOwner w calls nic =
      stepRoutes w (calls ++ [Call.getPrivateNetwork owner]) nic pnet := by
  simp [stepOwner, hown, hpn]

/-! Claim theorems. -/

/-- C9: a `NetworkInterface` whose `Spec.NodeName` differs from the
controller's node name makes `Reconcile` return success with no requeue,
leave the world (hence the store) untouched, and perform no external call
beyond the initial store read of the object. -/
theorem c9_foreign_is_noop (r : Reconciler) (w : World) (n : String)
    (nic : NetworkInterface)
    (hfind : w.nics.find? (fun m => m.meta.name == n) = some nic)
    (hforeign : nic.spec.nodeName ≠ r.nodeName) :
    Reconcile r w n = Outcome.ok ⟨none, none⟩ w [Call.get n] := by
  simp [Reconcile, hfind, hforeign]

/-- Witness for C9 at a concrete foreign object. -/
theorem c9_foreign_is_noop_witness :
    (Fixtures.wForeign.nics.find? (fun m => m.meta.name == "n1") =
        some Fixtures.nicForeign)
    ∧ Fixtures.nicForeign.spec.nodeName ≠ Fixtures.rNode.nodeName
    ∧ Reconcile Fixtures.rNode Fixtures.wForeign "n1" =
        Outcome.ok ⟨none, none⟩ Fixtures.wForeign [Call.get "n1"] :=
  ⟨by decide, by decide,
    c9_foreign_is_noop Fixtures.rNode Fixtures.wForeign "n1" Fixtures.nicForeign
      (by decide) (by decide)⟩

/-- C1: on a local, non-terminating object with a non-empty hardware address
whose metadata, link-name, status-write and configure steps all succeed but
whose owner-reference list is empty, the pass does not surface an error: it
panics (Go index out of range on `nic.OwnerReferences[0]`) right after the
configure step, before any `PrivateNetwork` store read. -/
theorem c1_empty_owner_reference_panics :
    Reconcile Fixtures.rNode Fixtures.wNoOwner "n1" =
      Outcome.panicked (Fixtures.wNoOwner.putStatus Fixtures.nicNoOwnerNamed)
        [Call.get "n1", Call.getMetadata, Call.getLinkName "aa:bb",
         Call.statusUpdate Fixtures.nicNoOwnerNamed,
         Call.configureLink "aa:bb" "10.0.0.2/24"] := by
  decide

/-! Monotonicity of the call trace: every step only appends calls. -/

theorem mem_calls_stepSyncRoutes {c : Call} {calls : List Call} (w : World)
    (nic : NetworkInterface) (routes : List Route) (h : c ∈ calls) :
    c ∈ (stepSyncRoutes w calls nic routes).callsOf := by
  simp only [stepSyncRoutes]
  split <;> simp [Outcome.callsOf, h]

theorem mem_calls_stepRoutes {c : Call} {calls : List Call} (w : World)
    (nic : NetworkInterface) (pnet : PrivateNetwork) (h : c ∈ calls) :
    c ∈ (stepRoutes w calls nic pnet).callsOf := by
  simp only [stepRoutes]
  split
  · simp [Outcome.callsOf, h]
  · exact mem_calls_stepSyncRoutes _ _ _ h

theorem mem_calls_stepOwner {c : Call} {calls : List Call} (w : World)
    (nic : NetworkInterface) (h : c ∈ calls) :
    c ∈ (stepOwner w calls nic).callsOf := by
  simp only [stepOwner]
  split
  · simp [Outcome.callsOf, h]
  · split
    · simp [Outcome.callsOf, h]
    · exact mem_calls_stepRoutes _ _ _ (by simp [h])

theorem mem_calls_stepConfigure {c : Call} {calls : List Call} (w : World)
    (nic : NetworkInterface) (h : c ∈ calls) :
    c ∈ (stepConfigure w calls nic).callsOf := by
  simp only [stepConfigure]
  split
  · exact mem_calls_stepOwner _ _ (by simp [h])
  · simp [Outcome.callsOf, h]

theorem mem_calls_stepStatusWrite {c : Call} {calls : List Call} (w : World)
    (nic : NetworkInterface) (linkName : String) (h : c ∈ calls) :
    c ∈ (stepStatusWrite w calls nic linkName).callsOf := by
  simp only [stepStatusWrite]
  split
  · exact mem_calls_stepConfigure _ _ (by simp [h])
  · simp [Outcome.callsOf, h]

theorem mem_calls_stepLink {c : Call} {calls : List Call} (w : World)
    (nic : NetworkInterface) (h : c ∈ calls) :
    c ∈ (stepLink w calls nic).callsOf := by
  simp only [stepLink]
  split
  · simp [Outcome.callsOf, h]
  · exact mem_calls_stepStatusWrite _ _ _ (by simp [h])

theorem mem_calls_stepMetadata {c : Call} {calls : List Call} (w : World)
    (nic : NetworkInterface) (h : c ∈ calls) :
    c ∈ (stepMetadata w calls nic).callsOf := by
  simp only [stepMetadata]
  split
  · simp [Outcome.callsOf, h]
  · split
    · exact mem_calls_stepLink _ _ (by simp [h])
    · simp [Outcome.callsOf, h]

/-- C2: for a terminating object carrying the finalizer marker, the
finalizer-clearing store update is performed exactly when `TearDownLink`
succeeds (and the updated object no longer carries the marker); when
`TearDownLink` fails, `Reconcile` surfaces the teardown error, the world
(hence the stored object and its finalizer) is unchanged, and the pass made
no store write: its only calls are the initial read and the failed
teardown. -/
theorem c2_teardown_gates_finalizer_removal (r : Reconciler) (w : World)
    (n : String) (nic : NetworkInterface)
    (hfind : w.nics.find? (fun m => m.meta.name == n) = some nic)
    (hnode : nic.spec.nodeName = r.nodeName)
    (hmac : nic.status.macAddress ≠ "")
    (hdel : nic.meta.deletionTimestamp.isSome)
    (hfin : finalizerName ∈ nic.meta.finalizers) :
    (Call.update (removeFinalizer nic) ∈ (Reconcile r w n).callsOf ↔
        w.tearDownOK = true)
    ∧ finalizerName ∉ (removeFinalizer nic).meta.finalizers
    ∧ (w.tearDownOK = false →
        Reconcile r w n = Outcome.ok ⟨none, some Err.tearDownFailed⟩ w
          [Call.get n,
           Call.tearDownLink nic.status.macAddress nic.spec.address]) := by
  rw [reconcile_found r w n nic hfind hnode hmac]
  refine ⟨?_, ?_, ?_⟩
  · cases htd : w.tearDownOK with
    | false => simp [stepTerminating, hdel, hfin, htd, Outcome.callsOf]
    | true =>
      cases hupd : w.updateOK with
      | false => simp [stepTerminating, hdel, hfin, htd, hupd, Outcome.callsOf]
      | true =>
        rw [stepTerminating_fall_through _ _ _ hdel hfin htd hupd]
        exact iff_of_true (mem_calls_stepMetadata _ _ (by simp)) rfl
  · simp [removeFinalizer]
  · intro htd
    simp [stepTerminating, hdel, hfin, htd]

/-- Witness for C2 at a concrete terminating object whose teardown
succeeds. -/
theorem c2_teardown_gates_finalizer_removal_witness :
    (Fixtures.wTerm.nics.find? (fun m => m.meta.name == "n1") =
        some Fixtures.nicTerm)
    ∧ Fixtures.nicTerm.meta.deletionTimestamp.isSome
    ∧ finalizerName ∈ Fixtures.nicTerm.meta.finalizers
    ∧ ((Call.update (removeFinalizer Fixtures.nicTerm) ∈
          (Reconcile Fixtures.rNode Fixtures.wTerm "n1").callsOf ↔
            Fixtures.wTerm.tearDownOK = true)
        ∧ finalizerName ∉ (removeFinalizer Fixtures.nicTerm).meta.finalizers
        ∧ (Fixtures.wTerm.tearDownOK = false →
            Reconcile Fixtures.rNode Fixtures.wTerm "n1" =
              Outcome.ok ⟨none, some Err.tearDownFailed⟩ Fixtures.wTerm
                [Call.get "n1",
                 Call.tearDownLink Fixtures.nicTerm.status.macAddress
                   Fixtures.nicTerm.spec.address])) :=
  ⟨by decide, by decide, by decide,
    c2_teardown_gates_finalizer_removal Fixtures.rNode Fixtures.wTerm "n1"
      Fixtures.nicTerm (by decide) (by decide) (by decide) (by decide)
      (by decide)⟩

/-! Store lemmas: how the two kinds of store write affect a later read. -/

theorem find?_putObjList (nics : List NetworkInterface) (a : NetworkInterface)
    (n : String) (ha : a.meta.name = n) :
    (putObjList nics a).find? (fun m => m.meta.name == n) =
      (nics.find? (fun m => m.meta.name == n)).map
        (fun o => { a with status := o.status }) := by
  induction nics with
  | nil => rfl
  | cons o rest ih =>
    by_cases hn : o.meta.name = n
    · simp [putObjList, List.find?, hn, ha]
    · have hne : o.meta.name ≠ a.meta.name := by rw [ha]; exact hn
      have hb : (o.meta.name == n) = false := by simp [hn]
      simp only [putObjList, List.map_cons] at ih ⊢
      simp [List.find?, hb, hne, ih]

theorem find?_putStatusList (nics : List NetworkInterface)
    (a : NetworkInterface) (n : String) (ha : a.meta.name = n) :
    (putStatusList nics a).find? (fun m => m.meta.name == n) =
      (nics.find? (fun m => m.meta.name == n)).map
        (fun o => { o with status := a.status }) := by
  induction nics with
  | nil => rfl
  | cons o rest ih =>
    by_cases hn : o.meta.name = n
    · simp [putStatusList, List.find?, hn, ha]
    · have hne : o.meta.name ≠ a.meta.name := by rw [ha]; exact hn
      have hb : (o.meta.name == n) = false := by simp [hn]
      simp only [putStatusList, List.map_cons] at ih ⊢
      simp [List.find?, hb, hne, ih]

theorem putStatusList_putStatusList (nics : List NetworkInterface)
    (a : NetworkInterface) :
    putStatusList (putStatusList nics a) a = putStatusList nics a := by
  induction nics with
  | nil => rfl
  | cons o rest ih =>
    by_cases hc : o.meta.name = a.meta.name <;>
      simp [putStatusList, hc] at ih ⊢ <;> exact ih

/-- C5 counterexample to the claim as stated: a foreign object whose
non-empty hardware address is absent from the metadata snapshot makes
`Reconcile` return success (no error) — the foreign filter returns before the
metadata check, so the universally stated claim fails on foreign objects. -/
theorem c5_counterexample_foreign_returns_success :
    Fixtures.nicForeign.status.macAddress ≠ ""
    ∧ Fixtures.wForeign.metadata = some []
    ∧ Fixtures.nicForeign.status.macAddress ∉ ([] : List String)
    ∧ Reconcile Fixtures.rNode Fixtures.wForeign "n1" =
        Outcome.ok ⟨none, none⟩ Fixtures.wForeign [Call.get "n1"] := by
  decide

/-- C5 (amended: restricted to non-foreign objects): a non-foreign object
with a non-empty hardware address absent from the metadata snapshot makes the
pass surface an error, perform no status write, and leave the stored object's
status — in particular `Status.LinkName` — unchanged. -/
theorem c5_absent_mac_surfaces_error_no_status_write (r : Reconciler)
    (w : World) (n : String) (nic : NetworkInterface) (macs : List String)
    (hfind : w.nics.find? (fun m => m.meta.name == n) = some nic)
    (hnode : nic.spec.nodeName = r.nodeName)
    (hmac : nic.status.macAddress ≠ "")
    (hmd : w.metadata = some macs)
    (habs : nic.status.macAddress ∉ macs) :
    ∃ e w' calls, Reconcile r w n = Outcome.ok ⟨none, some e⟩ w' calls
      ∧ (∀ x, Call.statusUpdate x ∉ calls)
      ∧ ∃ nic', w'.nics.find? (fun m => m.meta.name == n) = some nic'
          ∧ nic'.status = nic.status := by
  have hname : nic.meta.name = n := by
    have := List.find?_some hfind
    simpa using this
  rw [reconcile_found r w n nic hfind hnode hmac]
  by_cases hterm : nic.meta.deletionTimestamp.isSome ∧
      finalizerName ∈ nic.meta.finalizers
  · obtain ⟨hdel, hfin⟩ := hterm
    cases htd : w.tearDownOK with
    | false =>
      refine ⟨Err.tearDownFailed, w,
        [Call.get n, Call.tearDownLink nic.status.macAddress nic.spec.address],
        by simp [stepTerminating, hdel, hfin, htd], by simp, nic, hfind, rfl⟩
    | true =>
      cases hupd : w.updateOK with
      | false =>
        refine ⟨Err.updateFailed, w,
          [Call.get n,
           Call.tearDownLink nic.status.macAddress nic.spec.address,
           Call.update (removeFinalizer nic)],
          by simp [stepTerminating, hdel, hfin, htd, hupd], by simp, nic,
          hfind, rfl⟩
      | true =>
        rw [stepTerminating_fall_through _ _ _ hdel hfin htd hupd]
        refine ⟨Err.nicNotFoundOnNode, w.putObj (removeFinalizer nic),
          [Call.get n,
           Call.tearDownLink nic.status.macAddress nic.spec.address,
           Call.update (removeFinalizer nic), Call.getMetadata],
          ?_, by simp, { removeFinalizer nic with status := nic.status }, ?_,
          rfl⟩
        · simp [stepMetadata, World.putObj, removeFinalizer, hmd, habs]
        · have hname2 : (removeFinalizer nic).meta.name = n := by
            simpa [removeFinalizer] using hname
          simp only [World.putObj]
          rw [find?_putObjList _ _ _ hname2, hfind]
          rfl
  · rw [stepTerminating_skip _ _ _ hterm]
    refine ⟨Err.nicNotFoundOnNode, w, [Call.get n, Call.getMetadata],
      by simp [stepMetadata, hmd, habs], by simp, nic, hfind, rfl⟩

/-- Witness for the amended C5 at a concrete local object whose address is
missing from the snapshot. -/
theorem c5_absent_mac_surfaces_error_no_status_write_witness :
    (Fixtures.wAbsent.nics.find? (fun m => m.meta.name == "n1") =
        some Fixtures.nicAbsent)
    ∧ Fixtures.nicAbsent.status.macAddress ∉ ["cc:dd"]
    ∧ (∃ e w' calls,
        Reconcile Fixtures.rNode Fixtures.wAbsent "n1" =
          Outcome.ok ⟨none, some e⟩ w' calls
        ∧ (∀ x, Call.statusUpdate x ∉ calls)
        ∧ ∃ nic', w'.nics.find? (fun m => m.meta.name == "n1") = some nic'
            ∧ nic'.status = Fixtures.nicAbsent.status) :=
  ⟨by decide, by decide,
    c5_absent_mac_surfaces_error_no_status_write Fixtures.rNode
      Fixtures.wAbsent "n1" Fixtures.nicAbsent ["cc:dd"] (by decide)
      (by decide) (by decide) (by decide) (by decide)⟩

/-! Route-parsing lemmas. -/

theorem parseRoutes_ok_of_to_parse (l : List RouteSpec)
    (h : ∀ rt ∈ l, (parseIPNet rt.To).isSome) :
    parseRoutes l = Except.ok (l.map (fun rt =>
      { To := (parseIPNet rt.To).getD ⟨⟨0, 0, 0, 0⟩, 0⟩,
        Via := parseIP rt.Via })) := by
  induction l with
  | nil => rfl
  | cons r rest ih =>
    obtain ⟨c, hc⟩ := Option.isSome_iff_exists.mp (h r (List.mem_cons_self r rest))
    simp [parseRoutes, hc, ih (fun rt hrt => h rt (List.mem_cons_of_mem _ hrt))]

theorem parseRoutes_error_of_bad_to (l : List RouteSpec)
    (h : ∃ rt ∈ l, parseIPNet rt.To = none) :
    ∃ s, parseRoutes l = Except.error s ∧ parseIPNet s = none
      ∧ ∃ rt ∈ l, rt.To = s := by
  induction l with
  | nil => simp at h
  | cons r rest ih =>
    by_cases hr : parseIPNet r.To = none
    · exact ⟨r.To, by simp [parseRoutes, hr], hr, r,
        List.mem_cons_self r rest, rfl⟩
    · obtain ⟨c, hc⟩ := Option.ne_none_iff_exists'.mp hr
      have hrest : ∃ rt ∈ rest, parseIPNet rt.To = none := by
        obtain ⟨rt, hrt, hbad⟩ := h
        rcases List.mem_cons.mp hrt with he | hm
        · exact absurd (he ▸ hbad) hr
        · exact ⟨rt, hm, hbad⟩
      obtain ⟨s, hs, hsn, rt, hrt, hrts⟩ := ih hrest
      exact ⟨s, by simp [parseRoutes, hc, hs], hsn, rt,
        List.mem_cons_of_mem _ hrt, hrts⟩

/-! Outcome of the metadata-to-routes chain under pinned collaborator
behaviour. -/

theorem stepMetadata_calls_full (w : World) (cs : List Call)
    (nic : NetworkInterface) (macs : List String) (L owner : String)
    (rest : List String) (pnet : PrivateNetwork) (routes : List Route)
    (hmd : w.metadata = some macs) (hin : nic.status.macAddress ∈ macs)
    (hlk : lookupLink w.links nic.status.macAddress = some L)
    (hsu : w.statusUpdateOK = true) (hcfg : w.configureOK = true)
    (hown : nic.meta.ownerReferences = owner :: rest)
    (hpn : w.pnets.find? (fun p => p.name == owner) = some pnet)
    (hparse : parseRoutes pnet.routes = Except.ok routes) :
    (stepMetadata w cs nic).callsOf =
      cs ++ [Call.getMetadata, Call.getLinkName nic.status.macAddress,
        Call.statusUpdate
          { nic with status := { nic.status with linkName := L } },
        Call.configureLink nic.status.macAddress nic.spec.address,
        Call.getPrivateNetwork owner,
        Call.syncRoutes nic.status.macAddress routes] := by
  rw [stepMetadata_found _ _ _ _ hmd hin, stepLink_resolved _ _ _ _ hlk,
      stepStatusWrite_ok _ _ _ _ hsu,
      stepConfigure_ok _ _ _ (by simpa [World.putStatus] using hcfg),
      stepOwner_resolved _ _ _ owner rest pnet (by simpa using hown)
        (by simpa [World.putStatus] using hpn)]
  simp only [stepRoutes, hparse, stepSyncRoutes]
  split <;> simp [Outcome.callsOf]

theorem stepMetadata_parse_error (w : World) (cs : List Call)
    (nic : NetworkInterface) (macs : List String) (L owner : String)
    (rest : List String) (pnet : PrivateNetwork) (s : String)
    (hmd : w.metadata = some macs) (hin : nic.status.macAddress ∈ macs)
    (hlk : lookupLink w.links nic.status.macAddress = some L)
    (hsu : w.statusUpdateOK = true) (hcfg : w.configureOK = true)
    (hown : nic.meta.ownerReferences = owner :: rest)
    (hpn : w.pnets.find? (fun p => p.name == owner) = some pnet)
    (hparse : parseRoutes pnet.routes = Except.error s) :
    stepMetadata w cs nic =
      Outcome.ok ⟨none, some (Err.parseTo s)⟩
        (w.putStatus { nic with status := { nic.status with linkName := L } })
        (cs ++ [Call.getMetadata, Call.getLinkName nic.status.macAddress,
          Call.statusUpdate
            { nic with status := { nic.status with linkName := L } },
          Call.configureLink nic.status.macAddress nic.spec.address,
          Call.getPrivateNetwork owner]) := by
  rw [stepMetadata_found _ _ _ _ hmd hin, stepLink_resolved _ _ _ _ hlk,
      stepStatusWrite_ok _ _ _ _ hsu,
      stepConfigure_ok _ _ _ (by simpa [World.putStatus] using hcfg),
      stepOwner_resolved _ _ _ owner rest pnet (by simpa using hown)
        (by simpa [World.putStatus] using hpn)]
  simp [stepRoutes, hparse]

theorem stepMetadata_sync_done (w : World) (cs : List Call)
    (nic : NetworkInterface) (macs : List String) (L owner : String)
    (rest : List String) (pnet : PrivateNetwork) (routes : List Route)
    (hmd : w.metadata = some macs) (hin : nic.status.macAddress ∈ macs)
    (hlk : lookupLink w.links nic.status.macAddress = some L)
    (hsu : w.statusUpdateOK = true) (hcfg : w.configureOK = true)
    (hown : nic.meta.ownerReferences = owner :: rest)
    (hpn : w.pnets.find? (fun p => p.name == owner) = some pnet)
    (hparse : parseRoutes pnet.routes = Except.ok routes)
    (hsync : w.syncRoutesOK = true) :
    stepMetadata w cs nic =
      Outcome.ok ⟨none, none⟩
        (w.putStatus { nic with status := { nic.status with linkName := L } })
        (cs ++ [Call.getMetadata, Call.getLinkName nic.status.macAddress,
          Call.statusUpdate
            { nic with status := { nic.status with linkName := L } },
          Call.configureLink nic.status.macAddress nic.spec.address,
          Call.getPrivateNetwork owner,
          Call.syncRoutes nic.status.macAddress routes]) := by
  rw [stepMetadata_found _ _ _ _ hmd hin, stepLink_resolved _ _ _ _ hlk,
      stepStatusWrite_ok _ _ _ _ hsu,
      stepConfigure_ok _ _ _ (by simpa [World.putStatus] using hcfg),
      stepOwner_resolved _ _ _ owner rest pnet (by simpa using hown)
        (by simpa [World.putStatus] using hpn)]
  simp [stepRoutes, hparse, stepSyncRoutes, World.putStatus, hsync]

/-- C4: on every pass over a local object with a hardware address whose
collaborators all succeed, the metadata, link-name (with its status write),
configure and route-sync steps are all executed — with no hypothesis on the
deletion timestamp or finalizers, so in particular also on a pass whose
terminating branch has just torn the link down and cleared the finalizer. -/
theorem c4_steps_rerun_every_pass (r : Reconciler) (w : World) (n : String)
    (nic : NetworkInterface) (macs : List String) (L owner : String)
    (rest : List String) (pnet : PrivateNetwork) (routes : List Route)
    (hfind : w.nics.find? (fun m => m.meta.name == n) = some nic)
    (hnode : nic.spec.nodeName = r.nodeName)
    (hmac : nic.status.macAddress ≠ "")
    (htd : w.tearDownOK = true) (hupd : w.updateOK = true)
    (hmd : w.metadata = some macs) (hin : nic.status.macAddress ∈ macs)
    (hlk : lookupLink w.links nic.status.macAddress = some L)
    (hsu : w.statusUpdateOK = true) (hcfg : w.configureOK = true)
    (hown : nic.meta.ownerReferences = owner :: rest)
    (hpn : w.pnets.find? (fun p => p.name == owner) = some pnet)
    (hparse : parseRoutes pnet.routes = Except.ok routes) :
    Call.getMetadata ∈ (Reconcile r w n).callsOf
    ∧ Call.getLinkName nic.status.macAddress ∈ (Reconcile r w n).callsOf
    ∧ Call.configureLink nic.status.macAddress nic.spec.address ∈
        (Reconcile r w n).callsOf
    ∧ Call.syncRoutes nic.status.macAddress routes ∈
        (Reconcile r w n).callsOf := by
  rw [reconcile_found r w n nic hfind hnode hmac]
  by_cases hterm : nic.meta.deletionTimestamp.isSome ∧
      finalizerName ∈ nic.meta.finalizers
  · obtain ⟨hdel, hfin⟩ := hterm
    rw [stepTerminating_fall_through _ _ _ hdel hfin htd hupd,
        stepMetadata_calls_full _ _ _ macs L owner rest pnet routes
          (by simpa [World.putObj] using hmd)
          (by simpa [removeFinalizer] using hin)
          (by simpa [World.putObj, removeFinalizer] using hlk)
          (by simpa [World.putObj] using hsu)
          (by simpa [World.putObj] using hcfg)
          (by simpa [removeFinalizer] using hown)
          (by simpa [World.putObj] using hpn) hparse]
    exact ⟨by simp, by simp [removeFinalizer], by simp [removeFinalizer],
      by simp [removeFinalizer]⟩
  · rw [stepTerminating_skip _ _ _ hterm,
        stepMetadata_calls_full _ _ _ macs L owner rest pnet routes hmd hin
          hlk hsu hcfg hown hpn hparse]
    exact ⟨by simp, by simp, by simp, by simp⟩

/-- Witness for C4 at a terminating object whose teardown just succeeded in
the same pass. -/
theorem c4_steps_rerun_every_pass_witness :
    Fixtures.nicTerm.meta.deletionTimestamp.isSome
    ∧ finalizerName ∈ Fixtures.nicTerm.meta.finalizers
    ∧ Call.getMetadata ∈ (Reconcile Fixtures.rNode Fixtures.wTerm "n1").callsOf
    ∧ Call.getLinkName "aa:bb" ∈
        (Reconcile Fixtures.rNode Fixtures.wTerm "n1").callsOf
    ∧ Call.configureLink "aa:bb" "10.0.0.2/24" ∈
        (Reconcile Fixtures.rNode Fixtures.wTerm "n1").callsOf
    ∧ Call.syncRoutes "aa:bb" [] ∈
        (Reconcile Fixtures.rNode Fixtures.wTerm "n1").callsOf := by
  refine ⟨by decide, by decide, ?_⟩
  have h := c4_steps_rerun_every_pass Fixtures.rNode Fixtures.wTerm "n1"
    Fixtures.nicTerm ["aa:bb"] "scw0" "pn1" [] Fixtures.pnEmpty
    [] (by decide) (by decide) (by decide) (by decide) (by decide) (by decide)
    (by decide) (by decide) (by decide) (by decide) (by decide) (by decide)
    (by decide)
  exact ⟨h.1, h.2.1, h.2.2.1, h.2.2.2⟩

/-- C6: when the pass reaches the owning network and some route's `To` fails
to parse as a CIDR, `Reconcile` surfaces that parse error (carrying the first
failing `To` string) and `SyncRoutes` is never called, so no route of the
list is applied. -/
theorem c6_bad_to_aborts_without_sync (r : Reconciler) (w : World)
    (n : String) (nic : NetworkInterface) (macs : List String)
    (L owner : String) (rest : List String) (pnet : PrivateNetwork)
    (hfind : w.nics.find? (fun m => m.meta.name == n) = some nic)
    (hnode : nic.spec.nodeName = r.nodeName)
    (hmac : nic.status.macAddress ≠ "")
    (htd : w.tearDownOK = true) (hupd : w.updateOK = true)
    (hmd : w.metadata = some macs) (hin : nic.status.macAddress ∈ macs)
    (hlk : lookupLink w.links nic.status.macAddress = some L)
    (hsu : w.statusUpdateOK = true) (hcfg : w.configureOK = true)
    (hown : nic.meta.ownerReferences = owner :: rest)
    (hpn : w.pnets.find? (fun p => p.name == owner) = some pnet)
    (hbad : ∃ rt ∈ pnet.routes, parseIPNet rt.To = none) :
    ∃ s w' calls,
      Reconcile r w n = Outcome.ok ⟨none, some (Err.parseTo s)⟩ w' calls
      ∧ parseIPNet s = none ∧ (∃ rt ∈ pnet.routes, rt.To = s)
      ∧ ∀ m rts, Call.syncRoutes m rts ∉ calls := by
  obtain ⟨s, hs, hsn, hrt⟩ := parseRoutes_error_of_bad_to _ hbad
  rw [reconcile_found r w n nic hfind hnode hmac]
  by_cases hterm : nic.meta.deletionTimestamp.isSome ∧
      finalizerName ∈ nic.meta.finalizers
  · obtain ⟨hdel, hfin⟩ := hterm
    rw [stepTerminating_fall_through _ _ _ hdel hfin htd hupd,
        stepMetadata_parse_error _ _ _ macs L owner rest pnet s
          (by simpa [World.putObj] using hmd)
          (by simpa [removeFinalizer] using hin)
          (by simpa [World.putObj, removeFinalizer] using hlk)
          (by simpa [World.putObj] using hsu)
          (by simpa [World.putObj] using hcfg)
          (by simpa [removeFinalizer] using hown)
          (by simpa [World.putObj] using hpn) hs]
    exact ⟨s, _, _, rfl, hsn, hrt, fun m rts => by simp⟩
  · rw [stepTerminating_skip _ _ _ hterm,
        stepMetadata_parse_error _ _ _ macs L owner rest pnet s hmd hin hlk
          hsu hcfg hown hpn hs]
    exact ⟨s, _, _, rfl, hsn, hrt, fun m rts => by simp⟩

/-- Witness for C6 at a network whose single route has `To = "bad"`. -/
theorem c6_bad_to_aborts_without_sync_witness :
    (∃ rt ∈ Fixtures.pnBadRoute.routes, parseIPNet rt.To = none)
    ∧ ∃ s w' calls,
        Reconcile Fixtures.rNode Fixtures.wBadRoute "n1" =
          Outcome.ok ⟨none, some (Err.parseTo s)⟩ w' calls
        ∧ parseIPNet s = none
        ∧ (∃ rt ∈ Fixtures.pnBadRoute.routes, rt.To = s)
        ∧ ∀ m rts, Call.syncRoutes m rts ∉ calls :=
  ⟨by decide,
    c6_bad_to_aborts_without_sync Fixtures.rNode Fixtures.wBadRoute "n1"
      Fixtures.nicAbsent ["aa:bb"] "scw0" "pn1" [] Fixtures.pnBadRoute
      (by decide) (by decide) (by decide) (by decide) (by decide) (by decide)
      (by decide) (by decide) (by decide) (by decide) (by decide) (by decide)
      (by decide)⟩

/-- C10: when the pass reaches the owning network and every route's `To`
parses, an entry whose `Via` fails to parse does not abort the pass — the
entry is handed to `SyncRoutes` with a nil (`none`) `Via`; only `To` is
validated. -/
theorem c10_bad_via_not_validated (r : Reconciler) (w : World) (n : String)
    (nic : NetworkInterface) (macs : List String) (L owner : String)
    (rest : List String) (pnet : PrivateNetwork)
    (hfind : w.nics.find? (fun m => m.meta.name == n) = some nic)
    (hnode : nic.spec.nodeName = r.nodeName)
    (hmac : nic.status.macAddress ≠ "")
    (htd : w.tearDownOK = true) (hupd : w.updateOK = true)
    (hmd : w.metadata = some macs) (hin : nic.status.macAddress ∈ macs)
    (hlk : lookupLink w.links nic.status.macAddress = some L)
    (hsu : w.statusUpdateOK = true) (hcfg : w.configureOK = true)
    (hown : nic.meta.ownerReferences = owner :: rest)
    (hpn : w.pnets.find? (fun p => p.name == owner) = some pnet)
    (hall : ∀ rt ∈ pnet.routes, (parseIPNet rt.To).isSome)
    (hbad : ∃ rt ∈ pnet.routes, parseIP rt.Via = none)
    (hsync : w.syncRoutesOK = true) :
    ∃ w' calls, Reconcile r w n = Outcome.ok ⟨none, none⟩ w' calls
      ∧ Call.syncRoutes nic.status.macAddress
          (pnet.routes.map (fun rt =>
            { To := (parseIPNet rt.To).getD ⟨⟨0, 0, 0, 0⟩, 0⟩,
              Via := parseIP rt.Via })) ∈ calls
      ∧ ∃ rt ∈ pnet.routes, parseIP rt.Via = none ∧
          ({ To := (parseIPNet rt.To).getD ⟨⟨0, 0, 0, 0⟩, 0⟩, Via := none } :
              Route) ∈
            pnet.routes.map (fun rt =>
              { To := (parseIPNet rt.To).getD ⟨⟨0, 0, 0, 0⟩, 0⟩,
                Via := parseIP rt.Via }) := by
  have hparse := parseRoutes_ok_of_to_parse _ hall
  obtain ⟨rt0, hrt0, hv0⟩ := hbad
  rw [reconcile_found r w n nic hfind hnode hmac]
  by_cases hterm : nic.meta.deletionTimestamp.isSome ∧
      finalizerName ∈ nic.meta.finalizers
  · obtain ⟨hdel, hfin⟩ := hterm
    rw [stepTerminating_fall_through _ _ _ hdel hfin htd hupd,
        stepMetadata_sync_done _ _ _ macs L owner rest pnet _
          (by simpa [World.putObj] using hmd)
          (by simpa [removeFinalizer] using hin)
          (by simpa [World.putObj, removeFinalizer] using hlk)
          (by simpa [World.putObj] using hsu)
          (by simpa [World.putObj] using hcfg)
          (by simpa [removeFinalizer] using hown)
          (by simpa [World.putObj] using hpn) hparse
          (by simpa [World.putObj] using hsync)]
    refine ⟨_, _, rfl, by simp [removeFinalizer], rt0, hrt0, hv0, ?_⟩
    simpa [hv0] using List.mem_map_of_mem (fun rt =>
      ({ To := (parseIPNet rt.To).getD ⟨⟨0, 0, 0, 0⟩, 0⟩,
         Via := parseIP rt.Via } : Route)) hrt0
  · rw [stepTerminating_skip _ _ _ hterm,
        stepMetadata_sync_done _ _ _ macs L owner rest pnet _ hmd hin hlk hsu
          hcfg hown hpn hparse hsync]
    refine ⟨_, _, rfl, by simp, rt0, hrt0, hv0, ?_⟩
    simpa [hv0] using List.mem_map_of_mem (fun rt =>
      ({ To := (parseIPNet rt.To).getD ⟨⟨0, 0, 0, 0⟩, 0⟩,
         Via := parseIP rt.Via } : Route)) hrt0

/-- Witness for C10 at a network whose single route has a valid `To` and an
unparseable `Via`. -/
theorem c10_bad_via_not_validated_witness :
    (∀ rt ∈ Fixtures.pnBadVia.routes, (parseIPNet rt.To).isSome)
    ∧ (∃ rt ∈ Fixtures.pnBadVia.routes, parseIP rt.Via = none)
    ∧ ∃ w' calls,
        Reconcile Fixtures.rNode Fixtures.wBadVia "n1" =
          Outcome.ok ⟨none, none⟩ w' calls
        ∧ Call.syncRoutes Fixtures.nicAbsent.status.macAddress
            (Fixtures.pnBadVia.routes.map (fun rt =>
              { To := (parseIPNet rt.To).getD ⟨⟨0, 0, 0, 0⟩, 0⟩,
                Via := parseIP rt.Via })) ∈ calls
        ∧ ∃ rt ∈ Fixtures.pnBadVia.routes, parseIP rt.Via = none ∧
            ({ To := (parseIPNet rt.To).getD ⟨⟨0, 0, 0, 0⟩, 0⟩,
               Via := none } : Route) ∈
              Fixtures.pnBadVia.routes.map (fun rt =>
                { To := (parseIPNet rt.To).getD ⟨⟨0, 0, 0, 0⟩, 0⟩,
                  Via := parseIP rt.Via }) :=
  ⟨by decide, by decide,
    c10_bad_via_not_validated Fixtures.rNode Fixtures.wBadVia "n1"
      Fixtures.nicAbsent ["aa:bb"] "scw0" "pn1" [] Fixtures.pnBadVia
      (by decide) (by decide) (by decide) (by decide) (by decide) (by decide)
      (by decide) (by decide) (by decide) (by decide) (by decide) (by decide)
      (by decide) (by decide) (by decide)⟩

/-- The enqueue loop appends exactly one name-only request per listed
object, in order. -/
theorem enqueueAll_append (l : List NetworkInterface) (q : List Request) :
    enqueueAll l q =
      q ++ l.map (fun nic => ({ ns := "", name := nic.meta.name } : Request)) := by
  induction l generalizing q with
  | nil => simp [enqueueAll]
  | cons nic rest ih => simp [enqueueAll, ih]

/-- C8: on a `PrivateNetwork` update event for network `pnetName`, when
listing succeeds the fan-out enqueues exactly one request per stored object
labelled `privateNetworkLabel = pnetName` — keyed by name only with an empty
namespace, and depending only on labels, not on the members' states — and
when listing fails the queue is left unchanged (the failure is dropped, not
retried by this path). -/
theorem c8_fan_out_enqueues_exactly_members (w : World) (pnetName : String)
    (q : List Request) :
    (w.listOK = true →
      handlePrivateNetworkUpdate w pnetName q =
        q ++ (listByLabel w.nics pnetName).map
          (fun nic => ({ ns := "", name := nic.meta.name } : Request))
      ∧ (handlePrivateNetworkUpdate w pnetName q).length =
          q.length + (listByLabel w.nics pnetName).length)
    ∧ (w.listOK = false → handlePrivateNetworkUpdate w pnetName q = q) := by
  constructor
  · intro hl
    constructor
    · simp [handlePrivateNetworkUpdate, hl, enqueueAll_append]
    · simp [handlePrivateNetworkUpdate, hl, enqueueAll_append]
  · intro hl
    simp [handlePrivateNetworkUpdate, hl]

/-- Witness for C8: three labelled members yield exactly three name-only
requests; a failed listing yields none. -/
theorem c8_fan_out_enqueues_exactly_members_witness :
    Fixtures.wFan.listOK = true
    ∧ handlePrivateNetworkUpdate Fixtures.wFan "pn1" [] =
        [] ++ (listByLabel Fixtures.wFan.nics "pn1").map
          (fun nic => ({ ns := "", name := nic.meta.name } : Request))
    ∧ (listByLabel Fixtures.wFan.nics "pn1").map
        (fun nic => ({ ns := "", name := nic.meta.name } : Request)) =
        [⟨"", "m1"⟩, ⟨"", "m2"⟩, ⟨"", "m3"⟩]
    ∧ Fixtures.wFanFail.listOK = false
    ∧ handlePrivateNetworkUpdate Fixtures.wFanFail "pn1" [] = [] :=
  ⟨by decide,
    ((c8_fan_out_enqueues_exactly_members Fixtures.wFan "pn1" []).1
      (by decide)).1,
    by decide, by decide,
    (c8_fan_out_enqueues_exactly_members Fixtures.wFanFail "pn1" []).2
      (by decide)⟩

/-! Shape of the trace from the configure step on: one configure call, then
only owner/route calls — never another configure or status write. -/

theorem stepOwner_calls_shape (w : World) (cs : List Call)
    (nic : NetworkInterface) :
    ∃ t, (stepOwner w cs nic).callsOf = cs ++ t
      ∧ (∀ m a, Call.configureLink m a ∉ t)
      ∧ (∀ x, Call.statusUpdate x ∉ t) := by
  simp only [stepOwner]
  cases hO : nic.meta.ownerReferences with
  | nil => exact ⟨[], by simp [Outcome.callsOf], by simp, by simp⟩
  | cons owner rest =>
    cases hpn : w.pnets.find? (fun p => p.name == owner) with
    | none =>
      exact ⟨[Call.getPrivateNetwork owner],
        by simp [Outcome.callsOf, hpn], by simp, by simp⟩
    | some pnet =>
      simp only [hpn, stepRoutes]
      cases hpr : parseRoutes pnet.routes with
      | error s =>
        exact ⟨[Call.getPrivateNetwork owner],
          by simp [Outcome.callsOf, hpr], by simp, by simp⟩
      | ok routes =>
        refine ⟨[Call.getPrivateNetwork owner,
          Call.syncRoutes nic.status.macAddress routes], ?_, by simp, by simp⟩
        simp only [hpr, stepSyncRoutes]
        split <;> simp [Outcome.callsOf]

theorem stepConfigure_calls_shape (w : World) (cs : List Call)
    (nic : NetworkInterface) :
    ∃ t, (stepConfigure w cs nic).callsOf =
        cs ++ Call.configureLink nic.status.macAddress nic.spec.address :: t
      ∧ (∀ m a, Call.configureLink m a ∉ t)
      ∧ (∀ x, Call.statusUpdate x ∉ t) := by
  simp only [stepConfigure]
  split
  · obtain ⟨t, ht, h1, h2⟩ := stepOwner_calls_shape w
      (cs ++ [Call.configureLink nic.status.macAddress nic.spec.address]) nic
    exact ⟨t, by rw [ht]; simp, h1, h2⟩
  · exact ⟨[], by simp [Outcome.callsOf], by simp, by simp⟩

/-- From the metadata step on: a configure call in the trace is always
preceded by the status write of the resolved link name (and that write
succeeded), while a failing status write aborts the pass with the
status-update error. -/
theorem stepMetadata_write_before_configure (w0 w : World) (cs : List Call)
    (nic : NetworkInterface)
    (hsu0 : w.statusUpdateOK = w0.statusUpdateOK)
    (hlk0 : w.links = w0.links)
    (hcs1 : ∀ m a, Call.configureLink m a ∉ cs)
    (hcs2 : ∀ x, Call.statusUpdate x ∉ cs) :
    (∀ mac addr,
      Call.configureLink mac addr ∈ (stepMetadata w cs nic).callsOf →
      w0.statusUpdateOK = true
      ∧ ∃ nic' l₁ l₂,
          (stepMetadata w cs nic).callsOf = l₁ ++ Call.statusUpdate nic' :: l₂
          ∧ Call.configureLink mac addr ∈ l₂
          ∧ lookupLink w0.links nic'.status.macAddress =
              some nic'.status.linkName)
    ∧ (∀ x, Call.statusUpdate x ∈ (stepMetadata w cs nic).callsOf →
        w0.statusUpdateOK = false →
        ∃ w' calls,
          stepMetadata w cs nic =
            Outcome.ok ⟨none, some Err.statusUpdateFailed⟩ w' calls) := by
  cases hmd : w.metadata with
  | none =>
    have hc : stepMetadata w cs nic =
        Outcome.ok ⟨none, some Err.metadataFailed⟩ w
          (cs ++ [Call.getMetadata]) := by
      simp [stepMetadata, hmd]
    rw [hc]
    constructor
    · intro mac addr hmem
      simp [Outcome.callsOf, hcs1 mac addr] at hmem
    · intro x hx _
      simp [Outcome.callsOf, hcs2 x] at hx
  | some macs =>
    by_cases hin : nic.status.macAddress ∈ macs
    · cases hlk : lookupLink w.links nic.status.macAddress with
      | none =>
        have hc : stepMetadata w cs nic =
            Outcome.ok ⟨none, some Err.linkNameFailed⟩ w
              (cs ++ [Call.getMetadata,
                Call.getLinkName nic.status.macAddress]) := by
          rw [stepMetadata_found _ _ _ _ hmd hin]
          simp [stepLink, hlk]
        rw [hc]
        constructor
        · intro mac addr hmem
          simp [Outcome.callsOf, hcs1 mac addr] at hmem
        · intro x hx _
          simp [Outcome.callsOf, hcs2 x] at hx
      | some L =>
        rw [stepMetadata_found _ _ _ _ hmd hin, stepLink_resolved _ _ _ _ hlk]
        cases hsu : w.statusUpdateOK with
        | false =>
          have hc : stepStatusWrite w
              (cs ++ [Call.getMetadata] ++
                [Call.getLinkName nic.status.macAddress]) nic L =
              Outcome.ok ⟨none, some Err.statusUpdateFailed⟩ w
                (cs ++ [Call.getMetadata] ++
                  [Call.getLinkName nic.status.macAddress] ++
                  [Call.statusUpdate
                    { nic with status :=
                        { nic.status with linkName := L } }]) := by
            simp [stepStatusWrite, hsu]
          rw [hc]
          constructor
          · intro mac addr hmem
            simp [Outcome.callsOf, hcs1 mac addr] at hmem
          · intro x hx _
            exact ⟨w, _, rfl⟩
        | true =>
          rw [stepStatusWrite_ok _ _ _ _ hsu]
          set nic1 : NetworkInterface :=
            { nic with status := { nic.status with linkName := L } } with hnic1
          obtain ⟨t, ht, h1, h2⟩ := stepConfigure_calls_shape
            (w.putStatus nic1)
            (cs ++ [Call.getMetadata] ++
              [Call.getLinkName nic.status.macAddress] ++
              [Call.statusUpdate nic1]) nic1
          constructor
          · intro mac addr hmem
            rw [ht] at hmem
            have hx : Call.configureLink mac addr =
                Call.configureLink nic1.status.macAddress nic1.spec.address
                ∨ Call.configureLink mac addr ∈ t := by
              rcases List.mem_append.mp hmem with hL | hR
              · exfalso
                rcases List.mem_append.mp hL with hL2 | hsu1
                · rcases List.mem_append.mp hL2 with hL3 | hgl
                  · rcases List.mem_append.mp hL3 with hcs | hmd1
                    · exact hcs1 mac addr hcs
                    · simp at hmd1
                  · simp at hgl
                · simp at hsu1
              · exact List.mem_cons.mp hR
            refine ⟨hsu0 ▸ hsu, nic1,
              cs ++ [Call.getMetadata] ++
                [Call.getLinkName nic.status.macAddress],
              Call.configureLink nic1.status.macAddress nic1.spec.address :: t,
              ?_, List.mem_cons.mpr hx, ?_⟩
            · rw [ht]; simp
            · rw [← hlk0]
              exact hlk
          · intro x hx hfalse
            rw [hsu0] at hsu
            rw [hsu] at hfalse
            exact Bool.noConfusion hfalse
    · have hc : stepMetadata w cs nic =
          Outcome.ok ⟨none, some Err.nicNotFoundOnNode⟩ w
            (cs ++ [Call.getMetadata]) := by
        simp [stepMetadata, hmd, hin]
      rw [hc]
      constructor
      · intro mac addr hmem
        simp [Outcome.callsOf, hcs1 mac addr] at hmem
      · intro x hx _
        simp [Outcome.callsOf, hcs2 x] at hx

/-- C7: in every pass, a `ConfigureLink` call is preceded in the trace by the
status write of the resolved link name, that write succeeded, and a pass
whose status write fails aborts with the status-update error, so it never
reaches `ConfigureLink`. -/
theorem c7_status_write_precedes_configure (r : Reconciler) (w : World)
    (n : String) :
    (∀ mac addr,
      Call.configureLink mac addr ∈ (Reconcile r w n).callsOf →
      w.statusUpdateOK = true
      ∧ ∃ nic' l₁ l₂,
          (Reconcile r w n).callsOf = l₁ ++ Call.statusUpdate nic' :: l₂
          ∧ Call.configureLink mac addr ∈ l₂
          ∧ lookupLink w.links nic'.status.macAddress =
              some nic'.status.linkName)
    ∧ (∀ x, Call.statusUpdate x ∈ (Reconcile r w n).callsOf →
        w.statusUpdateOK = false →
        ∃ w' calls,
          Reconcile r w n =
            Outcome.ok ⟨none, some Err.statusUpdateFailed⟩ w' calls) := by
  cases hfind : w.nics.find? (fun m => m.meta.name == n) with
  | none =>
    have hc : Reconcile r w n = Outcome.ok ⟨none, none⟩ w [Call.get n] := by
      simp [Reconcile, hfind]
    rw [hc]
    exact ⟨fun mac addr hmem => by simp [Outcome.callsOf] at hmem,
      fun x hx _ => by simp [Outcome.callsOf] at hx⟩
  | some nic =>
    by_cases hnode : nic.spec.nodeName = r.nodeName
    · by_cases hmac : nic.status.macAddress = ""
      · have hc : Reconcile r w n =
            Outcome.ok ⟨some 1, none⟩ w [Call.get n] := by
          simp [Reconcile, hfind, hnode, hmac]
        rw [hc]
        exact ⟨fun mac addr hmem => by simp [Outcome.callsOf] at hmem,
          fun x hx _ => by simp [Outcome.callsOf] at hx⟩
      · rw [reconcile_found r w n nic hfind hnode hmac]
        by_cases hterm : nic.meta.deletionTimestamp.isSome ∧
            finalizerName ∈ nic.meta.finalizers
        · obtain ⟨hdel, hfin⟩ := hterm
          cases htd : w.tearDownOK with
          | false =>
            have hc : stepTerminating w [Call.get n] nic =
                Outcome.ok ⟨none, some Err.tearDownFailed⟩ w
                  [Call.get n,
                   Call.tearDownLink nic.status.macAddress nic.spec.address] := by
              simp [stepTerminating, hdel, hfin, htd]
            rw [hc]
            exact ⟨fun mac addr hmem => by simp [Outcome.callsOf] at hmem,
              fun x hx _ => by simp [Outcome.callsOf] at hx⟩
          | true =>
            cases hupd : w.updateOK with
            | false =>
              have hc : stepTerminating w [Call.get n] nic =
                  Outcome.ok ⟨none, some Err.updateFailed⟩ w
                    [Call.get n,
                     Call.tearDownLink nic.status.macAddress nic.spec.address,
                     Call.update (removeFinalizer nic)] := by
                simp [stepTerminating, hdel, hfin, htd, hupd]
              rw [hc]
              exact ⟨fun mac addr hmem => by simp [Outcome.callsOf] at hmem,
                fun x hx _ => by simp [Outcome.callsOf] at hx⟩
            | true =>
              rw [stepTerminating_fall_through _ _ _ hdel hfin htd hupd]
              exact stepMetadata_write_before_configure w
                (w.putObj (removeFinalizer nic)) _ (removeFinalizer nic) rfl
                rfl (fun m a => by simp) (fun x => by simp)
        · rw [stepTerminating_skip _ _ _ hterm]
          exact stepMetadata_write_before_configure w w _ nic rfl rfl
            (fun m a => by simp) (fun x => by simp)
    · have hc : Reconcile r w n = Outcome.ok ⟨none, none⟩ w [Call.get n] := by
        simp [Reconcile, hfind, hnode]
      rw [hc]
      exact ⟨fun mac addr hmem => by simp [Outcome.callsOf] at hmem,
        fun x hx _ => by simp [Outcome.callsOf] at hx⟩

/-- Witness for C7 at a pass that reaches the configure step. -/
theorem c7_status_write_precedes_configure_witness :
    Call.configureLink "aa:bb" "10.0.0.2/24" ∈
      (Reconcile Fixtures.rNode Fixtures.wNoOwner "n1").callsOf
    ∧ (Fixtures.wNoOwner.statusUpdateOK = true
       ∧ ∃ nic' l₁ l₂,
          (Reconcile Fixtures.rNode Fixtures.wNoOwner "n1").callsOf =
            l₁ ++ Call.statusUpdate nic' :: l₂
          ∧ Call.configureLink "aa:bb" "10.0.0.2/24" ∈ l₂
          ∧ lookupLink Fixtures.wNoOwner.links nic'.status.macAddress =
              some nic'.status.linkName) :=
  ⟨by decide,
    (c7_status_write_precedes_configure Fixtures.rNode Fixtures.wNoOwner
      "n1").1 "aa:bb" "10.0.0.2/24" (by decide)⟩

/-! Lemmas for the idempotence theorem: steps after the status write never
change the world, and repeating the same status write is a no-op. -/

theorem worldOf_stepOwner (w : World) (cs : List Call)
    (nic : NetworkInterface) : (stepOwner w cs nic).worldOf = w := by
  simp only [stepOwner]
  cases hO : nic.meta.ownerReferences with
  | nil => rfl
  | cons owner rest =>
    cases hpn : w.pnets.find? (fun p => p.name == owner) with
    | none => simp [hpn, Outcome.worldOf]
    | some pnet =>
      simp only [hpn, stepRoutes]
      cases hpr : parseRoutes pnet.routes with
      | error s => simp [Outcome.worldOf]
      | ok routes =>
        simp only [stepSyncRoutes]
        split <;> rfl

theorem worldOf_stepConfigure (w : World) (cs : List Call)
    (nic : NetworkInterface) : (stepConfigure w cs nic).worldOf = w := by
  simp only [stepConfigure]
  split
  · exact worldOf_stepOwner _ _ _
  · rfl

theorem putStatus_putStatus (w : World) (a : NetworkInterface) :
    (w.putStatus a).putStatus a = w.putStatus a := by
  simp [World.putStatus, putStatusList_putStatusList]

theorem withLinkName_self (a : NetworkInterface) (L : String)
    (h : a.status.linkName = L) :
    ({ a with status := { a.status with linkName := L } } :
      NetworkInterface) = a := by
  cases a with
  | mk m sp st =>
    cases st
    cases h
    rfl

theorem reconcile_worldOf_self (r : Reconciler) (w : World) (n : String)
    (hw : (Reconcile r w n).worldOf = w) :
    Reconcile r (Reconcile r w n).worldOf n = Reconcile r w n := by
  rw [hw]

/-- After a successful status write persisting link name `L`, re-running the
pass from the written store produces the same outcome as the original pass:
the reread object differs only in `Status.LinkName`, every branch decision
repeats, and rewriting the same status is a no-op on the store. -/
theorem second_pass_after_status_write (r : Reconciler) (w : World)
    (n : String) (nic nic1 : NetworkInterface) (macs : List String)
    (L : String)
    (hfind : w.nics.find? (fun m => m.meta.name == n) = some nic)
    (hname : nic.meta.name = n)
    (hnode : nic.spec.nodeName = r.nodeName)
    (hmac : nic.status.macAddress ≠ "")
    (hterm : ¬(nic.meta.deletionTimestamp.isSome ∧
        finalizerName ∈ nic.meta.finalizers))
    (hmd : w.metadata = some macs)
    (hin : nic.status.macAddress ∈ macs)
    (hlk : lookupLink w.links nic.status.macAddress = some L)
    (hsu : w.statusUpdateOK = true)
    (h1m : nic1.meta = nic.meta)
    (h1s : nic1.spec = nic.spec)
    (h1st : nic1.status = { nic.status with linkName := L }) :
    Reconcile r (w.putStatus nic1) n = Reconcile r w n := by
  have hn1 : ({ nic with status := { nic.status with linkName := L } } :
      NetworkInterface) = nic1 := by
    rw [← h1st, ← h1m, ← h1s]
  have h1mac : nic1.status.macAddress = nic.status.macAddress := by
    rw [h1st]
  have h1ln : nic1.status.linkName = L := by
    rw [h1st]
  have hname1 : nic1.meta.name = n := by
    rw [h1m]; exact hname
  have hfind1 : (w.putStatus nic1).nics.find?
      (fun m => m.meta.name == n) = some nic1 := by
    simp only [World.putStatus]
    rw [find?_putStatusList _ _ _ hname1, hfind]
    simp only [Option.map_some']
    rw [h1st]
    exact congrArg some hn1
  have hnode1 : nic1.spec.nodeName = r.nodeName := by
    rw [h1s]; exact hnode
  have hmac1 : nic1.status.macAddress ≠ "" := by
    rw [h1mac]; exact hmac
  have hterm1 : ¬(nic1.meta.deletionTimestamp.isSome ∧
      finalizerName ∈ nic1.meta.finalizers) := by
    rw [h1m]; exact hterm
  have hmd1 : (w.putStatus nic1).metadata = some macs := hmd
  have hin1 : nic1.status.macAddress ∈ macs := by
    rw [h1mac]; exact hin
  have hlk1 : lookupLink (w.putStatus nic1).links nic1.status.macAddress =
      some L := by
    rw [h1mac]; exact hlk
  have hsu1 : (w.putStatus nic1).statusUpdateOK = true := hsu
  rw [reconcile_found r w n nic hfind hnode hmac,
      stepTerminating_skip _ _ _ hterm,
      stepMetadata_found _ _ _ _ hmd hin,
      stepLink_resolved _ _ _ _ hlk,
      stepStatusWrite_ok _ _ _ _ hsu,
      hn1,
      reconcile_found r (w.putStatus nic1) n nic1 hfind1 hnode1 hmac1,
      stepTerminating_skip _ _ _ hterm1,
      stepMetadata_found _ _ _ _ hmd1 hin1,
      stepLink_resolved _ _ _ _ hlk1,
      stepStatusWrite_ok _ _ _ _ hsu1,
      withLinkName_self nic1 L h1ln,
      putStatus_putStatus, h1mac]

/-- C3 counterexample to the claim as stated: for a terminating object whose
teardown and finalizer update succeed, the first pass performs the teardown
and update calls while the immediately following pass (no external change in
between) does not, so the two call sequences differ. -/
theorem c3_counterexample_teardown_pass :
    (Reconcile Fixtures.rNode
        (Reconcile Fixtures.rNode Fixtures.wTerm "n1").worldOf
        "n1").callsOf ≠
      (Reconcile Fixtures.rNode Fixtures.wTerm "n1").callsOf := by
  decide

/-- C3 (amended: excluding the pass that clears the finalizer): invoking
`Reconcile` twice in succession with no intervening change to the stored
object, metadata snapshot or link state gives a second pass with the same
result, the same external call sequence and no further store change — the
whole outcome repeats — provided the first pass is not the terminating pass
that removes the finalizer from the store. -/
theorem c3_second_pass_repeats_outcome (r : Reconciler) (w : World)
    (n : String) (h : ¬ clearsFinalizer r w n) :
    Reconcile r (Reconcile r w n).worldOf n = Reconcile r w n := by
  cases hfind : w.nics.find? (fun m => m.meta.name == n) with
  | none =>
    apply reconcile_worldOf_self
    simp [Reconcile, hfind, Outcome.worldOf]
  | some nic =>
    have hname : nic.meta.name = n := by simpa using List.find?_some hfind
    by_cases hnode : nic.spec.nodeName = r.nodeName
    · by_cases hmac : nic.status.macAddress = ""
      · apply reconcile_worldOf_self
        simp [Reconcile, hfind, hnode, hmac, Outcome.worldOf]
      · by_cases hterm : nic.meta.deletionTimestamp.isSome ∧
            finalizerName ∈ nic.meta.finalizers
        · obtain ⟨hdel, hfin⟩ := hterm
          cases htd : w.tearDownOK with
          | false =>
            apply reconcile_worldOf_self
            rw [reconcile_found r w n nic hfind hnode hmac]
            simp [stepTerminating, hdel, hfin, htd, Outcome.worldOf]
          | true =>
            cases hupd : w.updateOK with
            | false =>
              apply reconcile_worldOf_self
              rw [reconcile_found r w n nic hfind hnode hmac]
              simp [stepTerminating, hdel, hfin, htd, hupd, Outcome.worldOf]
            | true =>
              exact absurd ⟨nic, hfind, hnode, hmac, hdel, hfin, htd, hupd⟩ h
        · cases hmd : w.metadata with
          | none =>
            apply reconcile_worldOf_self
            rw [reconcile_found r w n nic hfind hnode hmac,
                stepTerminating_skip _ _ _ hterm]
            simp [stepMetadata, hmd, Outcome.worldOf]
          | some macs =>
            by_cases hin : nic.status.macAddress ∈ macs
            · cases hlk : lookupLink w.links nic.status.macAddress with
              | none =>
                apply reconcile_worldOf_self
                rw [reconcile_found r w n nic hfind hnode hmac,
                    stepTerminating_skip _ _ _ hterm,
                    stepMetadata_found _ _ _ _ hmd hin]
                simp [stepLink, hlk, Outcome.worldOf]
              | some L =>
                cases hsu : w.statusUpdateOK with
                | false =>
                  apply reconcile_worldOf_self
                  rw [reconcile_found r w n nic hfind hnode hmac,
                      stepTerminating_skip _ _ _ hterm,
                      stepMetadata_found _ _ _ _ hmd hin,
                      stepLink_resolved _ _ _ _ hlk]
                  simp [stepStatusWrite, hsu, Outcome.worldOf]
                | true =>
                  have ho : Reconcile r w n =
                      stepConfigure
                        (w.putStatus
                          { nic with status :=
                              { nic.status with linkName := L } })
                        ([Call.get n] ++ [Call.getMetadata] ++
                          [Call.getLinkName nic.status.macAddress] ++
                          [Call.statusUpdate
                            { nic with status :=
                                { nic.status with linkName := L } }])
                        { nic with status :=
                            { nic.status with linkName := L } } := by
                    rw [reconcile_found r w n nic hfind hnode hmac,
                        stepTerminating_skip _ _ _ hterm,
                        stepMetadata_found _ _ _ _ hmd hin,
                        stepLink_resolved _ _ _ _ hlk,
                        stepStatusWrite_ok _ _ _ _ hsu]
                  rw [ho, worldOf_stepConfigure, ← ho]
                  exact second_pass_after_status_write r w n nic
                    { nic with status := { nic.status with linkName := L } }
                    macs L hfind hname hnode hmac hterm hmd hin hlk hsu rfl
                    rfl rfl
            · apply reconcile_worldOf_self
              rw [reconcile_found r w n nic hfind hnode hmac,
                  stepTerminating_skip _ _ _ hterm]
              simp [stepMetadata, hmd, hin, Outcome.worldOf]
    · apply reconcile_worldOf_self
      simp [Reconcile, hfind, hnode, Outcome.worldOf]

/-- Witness for the amended C3 at a concrete non-terminating object. -/
theorem c3_second_pass_repeats_outcome_witness :
    ¬ clearsFinalizer Fixtures.rNode Fixtures.wAbsent "n1"
    ∧ Reconcile Fixtures.rNode
        (Reconcile Fixtures.rNode Fixtures.wAbsent "n1").worldOf "n1" =
      Reconcile Fixtures.rNode Fixtures.wAbsent "n1" := by
  have hn : ¬ clearsFinalizer Fixtures.rNode Fixtures.wAbsent "n1" := by
    rintro ⟨nic, hfind, _, _, hdel, _⟩
    have hfx : Fixtures.wAbsent.nics.find?
        (fun m => m.meta.name == "n1") = some Fixtures.nicAbsent := by decide
    rw [hfx] at hfind
    cases hfind
    exact absurd hdel (by decide)
  exact ⟨hn,
    c3_second_pass_repeats_outcome Fixtures.rNode Fixtures.wAbsent "n1" hn⟩

end Vpc
